import Mathlib

/-!
Shallow embedding of the `composed-props` value-resolution library.

JS conventions used throughout the embedding:
* A JS value of type `V` that may also be `undefined` is modelled as
  `Option α`, with `none` standing for `undefined` and `some a` for a
  present (defined) value.  A present `null` is just one particular
  defined value (see `JSVal.null`).
* A record (JS object) is modelled as an association list
  `List (K × β)`; `List.lookup` is JS property access, yielding `none`
  (`undefined`) for a missing key.
* Exceptions are modelled, where a claim needs them, by a second
  transcription of the same code in the `Except` monad (`composeE`).
-/

namespace ComposedProps

/-- A tiny universe of JS literals, used to state claims that mention
specific JS values such as `null` or strings. -/
inductive JSVal where
  | null
  | str (s : String)
  | num (n : Int)
  | bool (b : Bool)
deriving DecidableEq

/-- The first argument of `compose`
(`value: V | ((props: U, defaultValue?: V) => V) | undefined`):
either a literal (possibly `undefined`, i.e. `none`) or a callable taking
the render props and the (possibly `undefined`) default value. -/
inductive CompValue (U α : Type) where
  | lit (v : Option α)
  | fn (f : U → Option α → Option α)

/-- The `ComposeOptions` record from `types.ts`.  All three fields are optional.
The `default` field is declared `default?: V`, but `compose` inspects it
with `typeof options?.default === 'function'`, so at runtime it is
either absent/`undefined` (`none`), a function of the render props
(`some (Sum.inl f)`), or a plain defined literal (`some (Sum.inr a)`). -/
structure ComposeOptions (U α : Type) where
  fallback : Option (U → Option α → Option α)
  transform : Option (α → U → Option α → Option α)
  default : Option ((U → Option α) ⊕ α)

variable {U α K : Type}

/-- Lines 8–11 of `compose.ts`:
`const resolvedDefault = typeof options?.default === 'function'
   ? (options.default as (props: U) => V)(renderProps) : options?.default`. -/
def resolveDefault (dflt : Option ((U → Option α) ⊕ α)) (renderProps : U) : Option α :=
  match dflt with
  | some (Sum.inl f) => f renderProps
  | some (Sum.inr a) => some a
  | none => none

/-- Lines 13–21 of `compose.ts`: primary evaluation of `value`
(invoke with `(renderProps, resolvedDefault)` when callable, else the literal). -/
def evalValue (value : CompValue U α) (renderProps : U) (resolvedDefault : Option α) :
    Option α :=
  match value with
  | CompValue.fn f => f renderProps resolvedDefault
  | CompValue.lit v => v

/-- Lines 23–25 of `compose.ts`:
`if (typeof result === 'undefined' && options?.fallback)
   result = options.fallback(renderProps, resolvedDefault)`. -/
def applyFallback (fallback : Option (U → Option α → Option α)) (renderProps : U)
    (resolvedDefault : Option α) (result : Option α) : Option α :=
  match result, fallback with
  | none, some fb => fb renderProps resolvedDefault
  | r, _ => r

/-- Lines 27–29 of `compose.ts`:
`if (typeof result === 'undefined' && resolvedDefault !== undefined)
   result = resolvedDefault`. -/
def applyDefault (resolvedDefault : Option α) (result : Option α) : Option α :=
  match result, resolvedDefault with
  | none, some d => some d
  | r, _ => r

/-- Lines 31–33 of `compose.ts`:
`if (options?.transform && result !== undefined)
   result = options.transform(result, renderProps, resolvedDefault)`. -/
def applyTransform (transform : Option (α → U → Option α → Option α)) (renderProps : U)
    (resolvedDefault : Option α) (result : Option α) : Option α :=
  match transform, result with
  | some tr, some r => tr r renderProps resolvedDefault
  | _, r => r

/-- The `compose` function from `compose.ts`: the four sequential steps of the returned
closure, in source order (resolve default, evaluate, fallback, default
substitution, transform).  `options = none` models an omitted `options`
argument. -/
def compose (value : CompValue U α) (options : Option (ComposeOptions U α)) :
    U → Option α :=
  fun renderProps =>
    let resolvedDefault := resolveDefault (options.bind ComposeOptions.default) renderProps
    applyTransform (options.bind ComposeOptions.transform) renderProps resolvedDefault
      (applyDefault resolvedDefault
        (applyFallback (options.bind ComposeOptions.fallback) renderProps resolvedDefault
          (evalValue value renderProps resolvedDefault)))

/-! ### Exception-monad transcription of `compose`

The spec's error-handling claims ("a throw propagates uncaught") are about
exceptions, which the pure embedding above cannot observe.  `composeE` is
the same `compose.ts` code transcribed into the `Except` monad: every
user-supplied callable may now return `Except.error e` instead of a value,
and the body sequences the four steps exactly as the source does, with no
`try`/`catch` anywhere (the source has none). -/

/-- Callable-or-literal value whose callable form may throw. -/
inductive CompValueE (U α ε : Type) where
  | lit (v : Option α)
  | fn (f : U → Option α → Except ε (Option α))

/-- Options record whose callables may throw. -/
structure ComposeOptionsE (U α ε : Type) where
  fallback : Option (U → Option α → Except ε (Option α))
  transform : Option (α → U → Option α → Except ε (Option α))
  default : Option ((U → Except ε (Option α)) ⊕ α)

variable {ε : Type}

/-- Lines 8–11 of `compose.ts` in the `Except` monad. -/
def resolveDefaultE (dflt : Option ((U → Except ε (Option α)) ⊕ α)) (renderProps : U) :
    Except ε (Option α) :=
  match dflt with
  | some (Sum.inl f) => f renderProps
  | some (Sum.inr a) => Except.ok (some a)
  | none => Except.ok none

/-- The `compose` function from `compose.ts`, transcribed step by step into the `Except`
monad: an error raised by any invoked callable short-circuits the rest of
the pipeline, exactly as a JS `throw` aborts the function body. -/
def composeE (value : CompValueE U α ε) (options : Option (ComposeOptionsE U α ε)) :
    U → Except ε (Option α) :=
  fun renderProps =>
    match resolveDefaultE (options.bind ComposeOptionsE.default) renderProps with
    | Except.error e => Except.error e
    | Except.ok resolvedDefault =>
      match (match value with
             | CompValueE.fn f => f renderProps resolvedDefault
             | CompValueE.lit v => Except.ok v) with
      | Except.error e => Except.error e
      | Except.ok r0 =>
        match (match r0, options.bind ComposeOptionsE.fallback with
               | none, some fb => fb renderProps resolvedDefault
               | r, _ => Except.ok r) with
        | Except.error e => Except.error e
        | Except.ok r1 =>
          match options.bind ComposeOptionsE.transform, applyDefault resolvedDefault r1 with
          | some tr, some r => tr r renderProps resolvedDefault
          | _, r => Except.ok r

/-! ### Records and the batch / whitelist helpers

JS objects with string keys are modelled as association lists over an
abstract key type `K` with a lawful boolean equality; `List.lookup` is
property access (`none` = `undefined` = missing key). -/

/-- The key set `new Set([...Object.keys(props), ...Object.keys(options)])`, kept as a
first-occurrence-ordered duplicate-free list, exactly as JS `Set`
insertion order works. -/
def jsSetOfKeys [BEq K] (ks : List K) : List K :=
  ks.foldl (fun acc k => if acc.contains k then acc else acc ++ [k]) []

/-- The `useComposedProps` hook from `use-composed-props.ts` (the body of its
`useMemo`; memoization itself is a caching concern with no bearing on the
returned value).  For every key of `props` or of `options` it stores
`compose(props[key], options?.[key])(state[key])`.  A key missing from
`props` reads as the `undefined` literal, exactly as `props[key]` does in
JS; the state map is total since the resolver never inspects it. -/
def useComposedProps [BEq K] (props : List (K × CompValue U α)) (state : K → U)
    (options : Option (List (K × ComposeOptions U α))) : List (K × Option α) :=
  let allKeys := jsSetOfKeys (props.map Prod.fst ++
    (match options with
     | some o => o.map Prod.fst
     | none => []))
  allKeys.map fun key =>
    (key,
      compose ((List.lookup key props).getD (CompValue.lit none))
        (options.bind fun o => List.lookup key o)
        (state key))

/-- JS object spread `{...a, ...b}` on records-with-unique-keys: `a`'s keys
in order with `b`'s value where `b` also has the key, then `b`'s remaining
keys in order. -/
def spreadMerge [BEq K] {β : Type} (a b : List (K × β)) : List (K × β) :=
  (a.map fun p => (p.1, (List.lookup p.1 b).getD p.2)) ++
  b.filter fun p => (List.lookup p.1 a).isNone

/-- The hook returned by `createUseComposedProps` from
`create-use-composed-props.ts` (named `useComposedPropsWithWhitelist` in
the source): partition `props` by whitelist membership
(`whitelist.includes(key)`), resolve the whitelisted part through
`useComposedProps`, and return `{...resolved, ...passThrough}`.  Resolved
values are tagged `Sum.inl`, untouched pass-through props `Sum.inr`. -/
def createUseComposedProps [BEq K] (whitelist : List K)
    (props : List (K × CompValue U α)) (state : K → U)
    (options : Option (List (K × ComposeOptions U α))) :
    List (K × (Option α ⊕ CompValue U α)) :=
  let whitelistedProps := props.filter fun p => whitelist.contains p.1
  let passThrough := props.filter fun p => !(whitelist.contains p.1)
  let resolved := useComposedProps whitelistedProps state options
  spreadMerge (resolved.map fun p => (p.1, Sum.inl p.2))
    (passThrough.map fun p => (p.1, Sum.inr p.2))

/-! ### Step lemmas for the pure pipeline -/

@[simp]
theorem applyFallback_some (fb : Option (U → Option α → Option α)) (rp : U)
    (rd : Option α) (a : α) : applyFallback fb rp rd (some a) = some a := by
  cases fb <;> rfl

@[simp]
theorem applyFallback_none_arg (fb : U → Option α → Option α) (rp : U) (rd : Option α) :
    applyFallback (some fb) rp rd none = fb rp rd := rfl

@[simp]
theorem applyFallback_no_fb (rp : U) (rd : Option α) :
    applyFallback none rp rd none = none := rfl

@[simp]
theorem applyDefault_some (rd : Option α) (a : α) :
    applyDefault rd (some a) = some a := by
  cases rd <;> rfl

@[simp]
theorem applyDefault_none (rd : Option α) : applyDefault rd none = rd := by
  cases rd <;> rfl

@[simp]
theorem applyTransform_no_tr (rp : U) (rd r : Option α) :
    applyTransform none rp rd r = r := by
  cases r <;> rfl

@[simp]
theorem applyTransform_some_some (tr : α → U → Option α → Option α) (rp : U)
    (rd : Option α) (a : α) : applyTransform (some tr) rp rd (some a) = tr a rp rd := rfl

@[simp]
theorem applyTransform_some_none (tr : α → U → Option α → Option α) (rp : U)
    (rd : Option α) : applyTransform (some tr) rp rd none = none := rfl

@[simp]
theorem resolveDefault_literal (dlit : Option α) (rp : U) :
    resolveDefault (Option.map Sum.inr dlit) rp = dlit := by
  cases dlit <;> rfl

/-- Unfolding equation for `compose`. -/
theorem compose_def (value : CompValue U α) (options : Option (ComposeOptions U α))
    (rp : U) :
    compose value options rp =
      applyTransform (options.bind ComposeOptions.transform) rp
        (resolveDefault (options.bind ComposeOptions.default) rp)
        (applyDefault (resolveDefault (options.bind ComposeOptions.default) rp)
          (applyFallback (options.bind ComposeOptions.fallback) rp
            (resolveDefault (options.bind ComposeOptions.default) rp)
            (evalValue value rp
              (resolveDefault (options.bind ComposeOptions.default) rp)))) := rfl

/-! ### Claim theorems for the resolver -/

/-- C8.  When no options are given the resolver's result is exactly the
primary evaluation: a non-callable literal resolves to itself, and a
callable value resolves to `value(state, undefined)`. -/
theorem compose_no_options :
    (∀ (s : U) (lit : Option α), compose (CompValue.lit lit) none s = lit) ∧
    (∀ (s : U) (f : U → Option α → Option α), compose (CompValue.fn f) none s = f s none) := by
  constructor
  · intro s lit
    rw [compose_def]
    cases lit <;> simp [evalValue, resolveDefault]
  · intro s f
    rw [compose_def]
    simp only [Option.bind_none, evalValue]
    cases h : f s none <;> simp [resolveDefault, h]

/-- C9.  Calling the resolver with `options` omitted is the same as calling
it with the empty options record, and in both cases the result is just the
primary evaluation: no fallback, default substitution, or transform is
applied. -/
theorem compose_omitted_options_eq_empty :
    ∀ (value : CompValue U α) (s : U),
      compose value none s = compose value (some ⟨none, none, none⟩) s ∧
      compose value (some ⟨none, none, none⟩) s = evalValue value s none := by
  intro value s
  have h2 : compose value (some ⟨none, none, none⟩) s = evalValue value s none := by
    rw [compose_def]
    simp only [Option.some_bind, resolveDefault]
    cases h : evalValue value s none <;> simp [h]
  refine ⟨?_, h2⟩
  rw [h2, compose_def]
  simp only [Option.bind_none, resolveDefault]
  cases h : evalValue value s none <;> simp [h]

/-- C2.  A present `null` literal is never replaced by fallback or default
substitution — only the absent marker (`undefined`, i.e. `none`) counts as
absent — but it does still pass through `transform` when one is supplied.
In particular `resolve(null, { fallback: () => 'X', default: 'Y' })(state)
=== null`. -/
theorem compose_null_present :
    (∀ (s : JSVal) (fb : Option (JSVal → Option JSVal → Option JSVal))
       (tr : Option (JSVal → JSVal → Option JSVal → Option JSVal))
       (d : Option ((JSVal → Option JSVal) ⊕ JSVal)),
       compose (CompValue.lit (some JSVal.null)) (some ⟨fb, tr, d⟩) s =
         match tr with
         | none => some JSVal.null
         | some t => t JSVal.null s (resolveDefault d s)) ∧
    (∀ s : JSVal,
       compose (CompValue.lit (some JSVal.null))
         (some ⟨some fun _ _ => some (JSVal.str "X"), none,
           some (Sum.inr (JSVal.str "Y"))⟩) s = some JSVal.null) := by
  constructor
  · intro s fb tr d
    rw [compose_def]
    simp only [Option.some_bind, evalValue, applyFallback_some, applyDefault_some]
    cases tr <;> simp
  · intro s
    rfl

/-- C1, counterexample.  The claim says `options.default` is never invoked
as a function and is forwarded verbatim.  But `compose` resolves a
function-valued `default` by calling it with the render props: with
`default = (s) => s` the substituted result varies with the state (42 ↦ 42,
7 ↦ 7), and with a value function that echoes its `defaultValue` argument
the forwarded default is the *invoked* result `s + 1`, not the function. -/
theorem compose_default_invoked_cex :
    compose (CompValue.lit (none : Option Nat))
        (some ⟨none, none, some (Sum.inl fun s => some s)⟩) 42 = some 42 ∧
    compose (CompValue.lit (none : Option Nat))
        (some ⟨none, none, some (Sum.inl fun s => some s)⟩) 7 = some 7 ∧
    compose (CompValue.fn fun _ dv => dv)
        (some ⟨none, none, some (Sum.inl fun s => some (s + 1))⟩) 10 = some 11 ∧
    compose (CompValue.lit (none : Option Nat))
        (some ⟨none, none, some (Sum.inl fun s => some s)⟩) 42 ≠
      compose (CompValue.lit (none : Option Nat))
        (some ⟨none, none, some (Sum.inl fun s => some s)⟩) 7 := by
  refine ⟨rfl, rfl, rfl, by decide⟩

/-- C1, amended.  The resolver first computes a resolved default — invoking
`options.default` once with the state when it is a function, taking it
verbatim otherwise — and that resolved default (not the raw option) is what
is forwarded as the auxiliary `defaultValue` argument to the callable form
of `value`, to `fallback`, and to `transform`, regardless of whether it was
used as the substituted result; it is also the value used for default
substitution.  Each conjunct observes one forwarding position through a
callable that echoes its `defaultValue` argument. -/
theorem compose_resolvedDefault_forwarding :
    ∀ (s : U) (d : Option ((U → Option α) ⊕ α)),
      compose (CompValue.fn fun _ dv => dv) (some ⟨none, none, d⟩) s =
        resolveDefault d s ∧
      compose (CompValue.lit none) (some ⟨some fun _ dv => dv, none, d⟩) s =
        resolveDefault d s ∧
      (∀ a : α,
        compose (CompValue.lit (some a)) (some ⟨none, some fun _ _ dv => dv, d⟩) s =
          resolveDefault d s) ∧
      (∀ a : α, resolveDefault (some (Sum.inr a)) s = some a) ∧
      (∀ f : U → Option α, resolveDefault (some (Sum.inl f)) s = f s) := by
  intro s d
  refine ⟨?_, ?_, ?_, fun a => rfl, fun f => rfl⟩
  · rw [compose_def]
    simp only [Option.some_bind, evalValue]
    cases h : resolveDefault d s <;> simp [h]
  · rw [compose_def]
    simp only [Option.some_bind, evalValue, applyFallback_none_arg]
    cases h : resolveDefault d s <;> simp [h]
  · intro a
    rw [compose_def]
    simp only [Option.some_bind, evalValue, applyFallback_some, applyDefault_some,
      applyTransform_some_some]

/-- C3, counterexample.  The claim says that whenever primary evaluation is
absent and a fallback is supplied, the pre-transform result equals
`fallback(state, default)` and a supplied transform is then applied to that
fallback result.  Both parts fail when the fallback itself returns the
absent marker: with `value = undefined`, `fallback = () => undefined`,
`default = 5`, the result is `5` (default substitution), not the fallback's
`undefined`; and with the same fallback, no default, and
`transform = () => 1`, the result is `undefined` — the transform's output
`1` never appears. -/
theorem compose_fallback_claim_cex :
    compose (CompValue.lit (none : Option Nat))
        (some ⟨some fun _ _ => none, none, some (Sum.inr 5)⟩) 0 = some 5 ∧
    (fun (_ : Nat) (_ : Option Nat) => (none : Option Nat)) 0 (some 5) ≠ some 5 ∧
    compose (CompValue.lit (none : Option Nat))
        (some ⟨some fun _ _ => none, some fun _ _ _ => some 1, none⟩) 0 = none ∧
    (none : Option Nat) ≠ some 1 := by
  refine ⟨rfl, by decide, rfl, by decide⟩

/-- C3, amended.  If primary evaluation yields absent and `fallback` is
supplied, then *provided the fallback's result is itself not absent*, the
pre-transform result equals `fallback(state, options.default)` (stated over
literal defaults, whose resolved form is the option verbatim), and when
`transform` is also supplied the final result is `transform` applied to
that fallback result. -/
theorem compose_fallback_result (s : U) (value : CompValue U α)
    (fb : U → Option α → Option α) (tr : Option (α → U → Option α → Option α))
    (dlit : Option α) (b : α)
    (heval : evalValue value s dlit = none)
    (hfb : fb s dlit = some b) :
    compose value (some ⟨some fb, tr, Option.map Sum.inr dlit⟩) s =
      match tr with
      | none => some b
      | some t => t b s dlit := by
  rw [compose_def]
  simp only [Option.some_bind, resolveDefault_literal, heval, applyFallback_none_arg,
    hfb, applyDefault_some]
  cases tr <;> simp

/-- Witness for `compose_fallback_result` at a concrete input. -/
theorem compose_fallback_result_witness :
    compose (CompValue.lit (none : Option Nat))
        (some ⟨some fun s _ => some (s + 2), some fun v s d => some (v + s + d.getD 0),
          Option.map Sum.inr (some 10)⟩) 1 = some 14 :=
  compose_fallback_result 1 (CompValue.lit none) (fun s _ => some (s + 2))
    (some fun v s d => some (v + s + d.getD 0)) (some 10) 3 rfl rfl

/-- C4.  If both primary evaluation and the fallback step yield absent and a
literal default `D` is supplied, the final result is `transform(D, state, D)`
when a transform is supplied and `D` otherwise: the default is substituted
only when still absent after fallback, and the substituted default passes
through the transform. -/
theorem compose_default_substitution (s : U) (value : CompValue U α)
    (fb : Option (U → Option α → Option α))
    (tr : Option (α → U → Option α → Option α)) (D : α)
    (heval : evalValue value s (some D) = none)
    (hfb : match fb with
           | none => True
           | some f => f s (some D) = none) :
    compose value (some ⟨fb, tr, some (Sum.inr D)⟩) s =
      match tr with
      | none => some D
      | some t => t D s (some D) := by
  rw [compose_def]
  simp only [Option.some_bind, resolveDefault, heval]
  have hfall : applyFallback fb s (some D) none = none := by
    cases fb with
    | none => rfl
    | some f => simpa using hfb
  rw [hfall]
  cases tr <;> simp

/-- Witness for `compose_default_substitution` at a concrete input. -/
theorem compose_default_substitution_witness :
    compose (CompValue.fn fun _ _ => (none : Option Nat))
        (some ⟨some fun _ _ => none, some fun v s d => some (v * 100 + s + d.getD 0),
          some (Sum.inr 7)⟩) 3 = some 710 :=
  compose_default_substitution 3 (CompValue.fn fun _ _ => none)
    (some fun _ _ => none) (some fun v s d => some (v * 100 + s + d.getD 0)) 7 rfl rfl

/-- C7.  An exception thrown by the composable value's function form, by the
fallback, or by the transform propagates unchanged out of the returned
resolver call (same error `e`, universally quantified), with no wrapping,
retry, suppression, validation, or recovery — whatever the other options
are (stated over literal defaults, so the default step itself cannot
throw). -/
theorem composeE_error_propagation :
    ∀ (s : U) (e : ε) (dlit : Option α) (a : α)
      (fbO : Option (U → Option α → Except ε (Option α)))
      (trO : Option (α → U → Option α → Except ε (Option α))),
      composeE (CompValueE.fn fun _ _ => Except.error e)
          (some ⟨fbO, trO, Option.map Sum.inr dlit⟩) s = Except.error e ∧
      composeE (CompValueE.lit none)
          (some ⟨some fun _ _ => Except.error e, trO, Option.map Sum.inr dlit⟩) s =
        Except.error e ∧
      composeE (CompValueE.lit (some a))
          (some ⟨fbO, some fun _ _ _ => Except.error e, Option.map Sum.inr dlit⟩) s =
        Except.error e := by
  intro s e dlit a fbO trO
  refine ⟨?_, ?_, ?_⟩
  · cases dlit <;> rfl
  · cases dlit <;> rfl
  · cases dlit <;> · cases fbO <;> rfl

/-- C10.  When primary evaluation, the fallback step, and default
substitution all yield absent, the resolver returns the absent marker
(`undefined`), and a supplied transform is not invoked at all: in the
exception-monad transcription, even a transform that always throws is never
reached, so the call still returns `ok undefined`. -/
theorem compose_all_absent_returns_absent (s : U)
    (tr : Option (α → U → Option α → Option α)) (e : ε) :
    (∀ (value : CompValue U α) (fb : Option (U → Option α → Option α))
       (d : Option ((U → Option α) ⊕ α)),
       evalValue value s (resolveDefault d s) = none →
       (match fb with
        | none => True
        | some f => f s (resolveDefault d s) = none) →
       resolveDefault d s = none →
       compose value (some ⟨fb, tr, d⟩) s = none) ∧
    composeE (CompValueE.fn fun _ _ => Except.ok (none : Option α))
        (some ⟨some fun _ _ => Except.ok none,
          some fun _ _ _ => Except.error e, none⟩) s = Except.ok none := by
  refine ⟨?_, rfl⟩
  intro value fb d heval hfb hd
  rw [compose_def]
  simp only [Option.some_bind, hd]
  rw [hd] at heval
  rw [heval]
  have hfall : applyFallback fb s none none = none := by
    cases fb with
    | none => rfl
    | some f =>
      rw [hd] at hfb
      simpa using hfb
  rw [hfall]
  cases tr <;> rfl

/-- Witness for `compose_all_absent_returns_absent` at a concrete input. -/
theorem compose_all_absent_returns_absent_witness :
    compose (CompValue.lit (none : Option Nat))
        (some ⟨some fun _ _ => none, some fun v _ _ => some (v + 1), none⟩) 0 = none ∧
    composeE (CompValueE.fn fun _ _ => Except.ok (none : Option Nat))
        (some ⟨some fun _ _ => Except.ok none,
          some fun _ _ _ => Except.error "boom", none⟩) 0 = Except.ok none := by
  have h := compose_all_absent_returns_absent (α := Nat) (U := Nat) (ε := String) 0
    (some fun v _ _ => some (v + 1)) "boom"
  exact ⟨h.1 (CompValue.lit none) (some fun _ _ => none) none rfl rfl rfl, h.2⟩

/-! ### Association-list lemmas for the batch and whitelist helpers -/

/-- Lookup through a key-preserving map whose new values may depend on the
key. -/
theorem lookup_keyed_map [BEq K] [LawfulBEq K] {β γ : Type} (g : K → β → γ) (k : K)
    (l : List (K × β)) :
    List.lookup k (l.map fun p => (p.1, g p.1 p.2)) = Option.map (g k) (List.lookup k l) := by
  induction l with
  | nil => rfl
  | cons p t ih =>
    obtain ⟨a, b⟩ := p
    by_cases h : k = a
    · subst h
      simp [List.lookup]
    · have hb : (k == a) = false := by simp [h]
      simp [List.lookup, hb, ih]

/-- Lookup in the graph of a function over a list of keys containing `k`. -/
theorem lookup_graph [BEq K] [LawfulBEq K] {β : Type} (g : K → β) (k : K) (l : List K)
    (hk : k ∈ l) :
    List.lookup k (l.map fun x => (x, g x)) = some (g k) := by
  induction l with
  | nil => cases hk
  | cons a t ih =>
    by_cases h : k = a
    · subst h
      simp [List.lookup]
    · have hb : (k == a) = false := by simp [h]
      have ht : k ∈ t := by
        rcases List.mem_cons.mp hk with h1 | h1
        · exact absurd h1 h
        · exact h1
      simp [List.lookup, hb, ih ht]

/-- Lookup distributes over append, preferring the left list. -/
theorem lookup_append [BEq K] {β : Type} (k : K) (l1 l2 : List (K × β)) :
    List.lookup k (l1 ++ l2) =
      match List.lookup k l1 with
      | some v => some v
      | none => List.lookup k l2 := by
  induction l1 with
  | nil => rfl
  | cons p t ih =>
    obtain ⟨a, b⟩ := p
    cases hb : (k == a) <;> simp [List.lookup, hb, ih]

/-- Lookup through a filter whose predicate depends only on the key. -/
theorem lookup_filter_key [BEq K] [LawfulBEq K] {β : Type} (q : K → Bool) (k : K)
    (l : List (K × β)) :
    List.lookup k (l.filter fun p => q p.1) =
      if q k then List.lookup k l else none := by
  induction l with
  | nil => cases hq : q k <;> simp [hq]
  | cons p t ih =>
    obtain ⟨a, b⟩ := p
    by_cases h : k = a
    · subst h
      cases hq : q k <;> simp [List.filter, List.lookup, hq, ih]
    · have hb : (k == a) = false := by simp [h]
      cases hq : q a <;> simp [List.filter, List.lookup, hb, hq, ih]

/-- Lookup in a JS object spread `{...a, ...b}`: `b`'s binding wins, else
`a`'s. -/
theorem lookup_spreadMerge [BEq K] [LawfulBEq K] {β : Type} (a b : List (K × β)) (k : K) :
    List.lookup k (spreadMerge a b) =
      match List.lookup k b with
      | some w => some w
      | none => List.lookup k a := by
  unfold spreadMerge
  rw [lookup_append, lookup_keyed_map (fun x v => (List.lookup x b).getD v) k a,
    lookup_filter_key (fun x => (List.lookup x a).isNone) k b]
  cases hb : List.lookup k b <;> cases ha : List.lookup k a <;> simp [hb, ha]

/-- Membership in the JS key set is membership in the concatenated key
lists. -/
theorem mem_jsSetOfKeys [BEq K] [LawfulBEq K] (k : K) (ks : List K) :
    k ∈ jsSetOfKeys ks ↔ k ∈ ks := by
  have aux : ∀ (l acc : List K),
      (k ∈ l.foldl (fun acc x => if acc.contains x then acc else acc ++ [x]) acc) ↔
        (k ∈ acc ∨ k ∈ l) := by
    intro l
    induction l with
    | nil => intro acc; simp
    | cons a t ih =>
      intro acc
      simp only [List.foldl_cons]
      rw [ih]
      cases hc : acc.contains a with
      | true =>
        have ha : a ∈ acc := by
          simpa [List.contains] using hc
        simp only [hc, if_true, List.mem_cons]
        constructor
        · rintro (h | h)
          · exact Or.inl h
          · exact Or.inr (Or.inr h)
        · rintro (h | h | h)
          · exact Or.inl h
          · exact Or.inl (h ▸ ha)
          · exact Or.inr h
      | false =>
        have hif : (if false = true then acc else acc ++ [a]) = acc ++ [a] := rfl
        rw [hif]
        simp only [List.mem_append, List.mem_cons, List.mem_singleton]
        tauto
  unfold jsSetOfKeys
  rw [aux]
  simp

/-! ### Claim theorems for the batch and whitelist helpers -/

/-- C5.  The batch helper resolves every key present in either the input
props record or the options record: for each such key the output holds
`compose(props[key], options?.[key])(state[key])` — the Value Resolver
applied to that key's composable value and options, immediately invoked
with that key's per-key state. -/
theorem useComposedProps_resolves [BEq K] [LawfulBEq K]
    (props : List (K × CompValue U α)) (state : K → U)
    (options : Option (List (K × ComposeOptions U α))) (k : K)
    (hk : k ∈ props.map Prod.fst ∨ k ∈ (match options with
      | some o => o.map Prod.fst
      | none => [])) :
    List.lookup k (useComposedProps props state options) =
      some (compose ((List.lookup k props).getD (CompValue.lit none))
        (options.bind fun o => List.lookup k o) (state k)) := by
  have hmem : k ∈ jsSetOfKeys (props.map Prod.fst ++
      (match options with
       | some o => o.map Prod.fst
       | none => [])) := by
    rw [mem_jsSetOfKeys]
    exact List.mem_append.mpr hk
  unfold useComposedProps
  exact lookup_graph _ k _ hmem

/-- Witness for `useComposedProps_resolves` at a concrete input. -/
theorem useComposedProps_resolves_witness :
    List.lookup 1 (useComposedProps [(1, CompValue.lit (some 5))]
      (fun _ => (0 : Nat)) (none : Option (List (Nat × ComposeOptions Nat Nat)))) =
      some (some 5) := by
  have h := useComposedProps_resolves [(1, CompValue.lit (some 5))]
    (fun _ => (0 : Nat)) (none : Option (List (Nat × ComposeOptions Nat Nat))) 1
    (Or.inl (by decide))
  simpa using h

/-- C6.  The whitelist helper leaves every key of the input props that is
not in the whitelist unchanged in the output (same key, same value, tagged
`Sum.inr`), while whitelisted keys are resolved through the batch helper
applied to the whitelisted subset of the props: the output is the merge of
the resolved subset and the untouched remainder. -/
theorem createUseComposedProps_partition [BEq K] [LawfulBEq K]
    (whitelist : List K) (props : List (K × CompValue U α)) (state : K → U)
    (options : Option (List (K × ComposeOptions U α))) :
    (∀ (k : K) (v : CompValue U α), whitelist.contains k = false →
       List.lookup k props = some v →
       List.lookup k (createUseComposedProps whitelist props state options) =
         some (Sum.inr v)) ∧
    (∀ k : K, whitelist.contains k = true →
       List.lookup k (createUseComposedProps whitelist props state options) =
         Option.map Sum.inl (List.lookup k
           (useComposedProps (props.filter fun p => whitelist.contains p.1)
             state options))) := by
  constructor
  · intro k v hw hv
    unfold createUseComposedProps
    rw [lookup_spreadMerge]
    have hpass : List.lookup k
        ((props.filter fun p => !(whitelist.contains p.1)).map
          fun p => (p.1, (Sum.inr p.2 : Option α ⊕ CompValue U α))) =
        some (Sum.inr v) := by
      rw [lookup_keyed_map (fun _ v => (Sum.inr v : Option α ⊕ CompValue U α)) k,
        lookup_filter_key (fun x => !(whitelist.contains x)) k]
      have hcond : (!whitelist.contains k) = true := by rw [hw]; rfl
      rw [if_pos hcond, hv]
      rfl
    rw [hpass]
  · intro k hw
    unfold createUseComposedProps
    rw [lookup_spreadMerge]
    have hpass : List.lookup k
        ((props.filter fun p => !(whitelist.contains p.1)).map
          fun p => (p.1, (Sum.inr p.2 : Option α ⊕ CompValue U α))) = none := by
      rw [lookup_keyed_map (fun _ v => (Sum.inr v : Option α ⊕ CompValue U α)) k,
        lookup_filter_key (fun x => !(whitelist.contains x)) k]
      have hcond : ¬ ((!whitelist.contains k) = true) := by rw [hw]; simp
      rw [if_neg hcond]
      rfl
    rw [hpass]
    rw [lookup_keyed_map (fun _ v => (Sum.inl v : Option α ⊕ CompValue U α)) k]

/-- Witness for `createUseComposedProps_partition` at a concrete input:
key `2` is not whitelisted and passes through untouched; key `1` is
whitelisted and resolved through the batch helper. -/
theorem createUseComposedProps_partition_witness :
    List.lookup 2 (createUseComposedProps [1]
        [(1, CompValue.lit (some 5)), (2, CompValue.lit (some 9))]
        (fun _ => (0 : Nat)) (none : Option (List (Nat × ComposeOptions Nat Nat)))) =
      some (Sum.inr (CompValue.lit (some 9))) ∧
    List.lookup 1 (createUseComposedProps [1]
        [(1, CompValue.lit (some 5)), (2, CompValue.lit (some 9))]
        (fun _ => (0 : Nat)) (none : Option (List (Nat × ComposeOptions Nat Nat)))) =
      Option.map Sum.inl (List.lookup 1
        (useComposedProps ([(1, CompValue.lit (some 5)),
            (2, CompValue.lit (some 9))].filter fun p => List.contains [1] p.1)
          (fun _ => (0 : Nat)) none)) := by
  have h := createUseComposedProps_partition [1]
    [(1, CompValue.lit (some (5 : Nat))), (2, CompValue.lit (some 9))]
    (fun _ => (0 : Nat)) (none : Option (List (Nat × ComposeOptions Nat Nat)))
  exact ⟨h.1 2 (CompValue.lit (some 9)) (by decide) rfl, h.2 1 (by decide)⟩

end ComposedProps
